import Mathlib

set_option autoImplicit false

/-!
Shallow embedding of the configuration-resolution engine of the `drawable`
repository (file `src/drawable/drawable_element.py`), together with theorems
settling the frozen claims about it.

Python dictionaries are modelled as insertion-ordered association lists
(`VDict`), with assignment semantics that replace an existing key in place
and append a fresh key at the end, exactly like CPython dicts.  Python
exceptions are modelled with `Except String`.
-/

namespace Drawable

/-- Fuelled worker for `pySplit`; the fuel starts at the string's length, so
it never runs out (each step either consumes one character or at least
`sep.length ≥ 1` characters). -/
def splitAux (sep : List Char) : Nat → List Char → List (List Char)
  | _, [] => [[]]
  | 0, s => [s]
  | f + 1, c :: rest =>
    if sep.isPrefixOf (c :: rest) then
      [] :: splitAux sep f ((c :: rest).drop sep.length)
    else
      match splitAux sep f rest with
      | [] => [[c]]
      | p :: ps => (c :: p) :: ps

/-- Python `s.split(sep)` for a non-empty separator: the list of pieces
between non-overlapping occurrences of `sep`, scanning left to right. -/
def pySplit (s sep : String) : List String :=
  (splitAux sep.data s.data.length s.data).map (fun cs => String.mk cs)

/-- Python `s.endswith(suf)`. -/
def pyEndsWith (s suf : String) : Bool :=
  suf.data.isSuffixOf s.data

/-- Python `s.isdigit()` for ASCII strings: non-empty and all digits. -/
def pyIsDigit (s : String) : Bool :=
  !s.data.isEmpty && s.data.all Char.isDigit

mutual

/-- A value stored in a configuration dictionary: a string, an integer, or a
nested dictionary (the three shapes the engine's merge code distinguishes:
only dictionaries answer `hasattr(value, 'get')`). -/
inductive Val where
  | vstr : String → Val
  | vint : Int → Val
  | vdict : VDict → Val

/-- An insertion-ordered Python dictionary with string keys. -/
inductive VDict where
  | nil : VDict
  | cons : String → Val → VDict → VDict

end

/-- Build a `VDict` from a list literal, in order. -/
def VDict.ofList : List (String × Val) → VDict
  | [] => .nil
  | (k, v) :: rest => .cons k v (VDict.ofList rest)

/-- Python `d[k]` lookup (first binding wins; keys are unique in dicts built
by the code, but lookup is defined for any list). -/
def dget : VDict → String → Option Val
  | .nil, _ => none
  | .cons k' v' rest, k => if k' = k then some v' else dget rest k

/-- Python `d[k] = v` assignment: replaces an existing key in place, keeping
its position, and appends a missing key at the end. -/
def dset : VDict → String → Val → VDict
  | .nil, k, v => .cons k v .nil
  | .cons k' v' rest, k, v =>
    if k' = k then .cons k v rest else .cons k' v' (dset rest k v)

/-- Python `k in d`. -/
def dmem (d : VDict) (k : String) : Bool :=
  (dget d k).isSome

/-- The ordered key list of a dictionary. -/
def dkeys : VDict → List String
  | .nil => []
  | .cons k _ rest => k :: dkeys rest

/--
`deep_update` from `drawable_element.py` (lines 40-51), on an arbitrary base
value.  The Python code iterates over the update's items; when the update
value has a `get` attribute (i.e. is a dict) it recurses into
`base_dict.get(key, {})`, otherwise it assigns `base_dict[key] = value`.
When the base is not a dict, `base_dict.get` raises `AttributeError` and
`base_dict[key] = value` raises `TypeError`; an empty update returns the
base unchanged whatever it is.
-/
def deepUpdateGo : Val → VDict → Except String Val
  | base, .nil => .ok base
  | base, .cons k (.vdict u) rest =>
    match base with
    | .vdict l => do
      let sub' ← deepUpdateGo ((dget l k).getD (.vdict .nil)) u
      deepUpdateGo (.vdict (dset l k sub')) rest
    | _ => .error "AttributeError: object has no attribute get"
  | base, .cons k v rest =>
    match base with
    | .vdict l => deepUpdateGo (.vdict (dset l k v)) rest
    | _ => .error "TypeError: object does not support item assignment"

/-- `deep_update(base_dict, update)` entry point on dictionaries. -/
def deep_update (base : VDict) (upd : VDict) : Except String Val :=
  deepUpdateGo (.vdict base) upd

/--
The claim's merge policy, modelled from the claim's words: "merging
recursively whenever both the base and override values are mappings and
replacing the base value outright otherwise".  It is total (no failure
case).
-/
def mergeSpecClaim : VDict → VDict → VDict
  | base, .nil => base
  | base, .cons k (.vdict u) rest =>
    match dget base k with
    | some (.vdict bsub) =>
      mergeSpecClaim (dset base k (.vdict (mergeSpecClaim bsub u))) rest
    | _ => mergeSpecClaim (dset base k (.vdict u)) rest
  | base, .cons k v rest => mergeSpecClaim (dset base k v) rest

/--
The amended merge policy, modelled from the amended claim's words: the
override's entries are processed in order; an override value that is a
mapping is merged recursively into the base's value at that key (a missing
base value is treated as an empty mapping, and a present non-mapping base
value makes the merge fail); an override value that is not a mapping
replaces the base value outright; a non-mapping base with a non-empty
override always fails.
-/
def mergeAmendedVal : VDict → Val → Except String Val
  | .nil, base => .ok base
  | .cons k (.vdict u) rest, .vdict b => do
    let nv ← mergeAmendedVal u ((dget b k).getD (.vdict .nil))
    mergeAmendedVal rest (.vdict (dset b k nv))
  | .cons _ (.vdict _) _, _ => .error "AttributeError: object has no attribute get"
  | .cons k v rest, .vdict b => mergeAmendedVal rest (.vdict (dset b k v))
  | .cons _ _ _, _ => .error "TypeError: object does not support item assignment"

/--
One dotted-path insertion of `_complete_dict` (lines 335-360): walk
`splt[:-1]` with `setdefault(k, {})`, then assign the final segment.
Walking into a position already holding a non-dict value raises in Python
(either the next `setdefault` or the final item assignment hits a
non-dict), modelled as an error.
-/
def insertPath (l : VDict) : List String → Val → Except String VDict
  | [], _ => .ok l
  | [last], v => .ok (dset l last v)
  | k :: rest, v =>
    match dget l k with
    | none => do
      let sub ← insertPath .nil rest v
      .ok (dset l k (.vdict sub))
    | some (.vdict sub) => do
      let sub' ← insertPath sub rest v
      .ok (dset l k (.vdict sub'))
    | some _ => .error "TypeError: walked into a non-dict value"

/-- Worker of `complete_dict`, folding the flat dict's items in order into
the accumulated tree-structured dict. -/
def completeDictGo : VDict → VDict → Except String VDict
  | .nil, full => .ok full
  | .cons k v rest, full =>
    if (pySplit k ".").length > 1 then do
      let full' ← insertPath full (pySplit k ".") v
      completeDictGo rest full'
    else
      completeDictGo rest (dset full k v)

/--
`_complete_dict` (lines 335-360): reformat a flat dict whose keys may
contain '.' into a tree structure; keys without a dot are copied, dotted
keys are exploded along the path (`{"a.b.c": v}` becomes
`{"a": {"b": {"c": v}}}`).
-/
def complete_dict (sub : VDict) : Except String VDict :=
  completeDictGo sub .nil

/--
The result of storing a scalar attribute on an element: the raw value
unchanged, the value parsed to the backend's native expression form
(`parse_entry`), or a named design variable registered with the modeler
(`modeler.set_variable(value, name)`), recorded with its generated name.
-/
inductive Resolved where
  | raw : Val → Resolved
  | parsed : Val → Resolved
  | registered : String → Val → Resolved

/-- The element state `_set_element` consults: whether `self._modeler` is
`None`, the mode string (`"None"` when there is no modeler, otherwise
`modeler.mode`), and `self._name`. -/
structure ModeEnv where
  modelerPresent : Bool
  mode : String
  selfName : String

/--
`DrawableElement._set_element` (lines 230-249).  `clsNumBool` is the test
`cls_name in [int, float, bool]`.  The raw branch fires when the type is
numeric/boolean, the modeler is absent, or the key ends with the literal
suffix `__n`; otherwise gds mode parses (`parse_entry`) and any other mode
registers a design variable named `self.name + "_" + key`.
-/
def set_element (env : ModeEnv) (key : String) (clsNumBool : Bool) (v : Val) :
    Resolved :=
  if clsNumBool || !env.modelerPresent || pyEndsWith key "__n" then
    .raw v
  else if env.mode == "gds" then
    .parsed v
  else
    .registered (env.selfName ++ "_" ++ key) v

/-- Python `s.startswith(pre)`. -/
def pyStartsWith (s pre : String) : Bool :=
  pre.data.isPrefixOf s.data

/-- A Python value as it travels through `DrawableElement.__init__`'s
positional parameters: `None`, a string, a Modeler object (carrying its
`mode` attribute), or a configuration dictionary. -/
inductive PyV where
  | pynone : PyV
  | pystr : String → PyV
  | pymodeler : String → PyV
  | pyconf : VDict → PyV

/-- The four positional parameters of `DrawableElement.__init__`
(lines 108-115), in their declared order `folder, params, name, modeler`. -/
structure InitArgs where
  folder : PyV
  params : PyV
  name : PyV
  modeler : PyV

/--
The argument tuple `_create_variation` (lines 382-388) passes to the
variant element's constructor.  The call site is positional:
`cls(self._folder, variation, self._modeler, self._name + f"_{kv}_{indv}",
parent=self)`, so the third positional argument (bound to `name`) receives
`self._modeler` and the fourth (bound to `modeler`) receives the
constructed name string.
-/
def createVariationCallArgs (selfFolder selfName : String) (selfModeler : PyV)
    (variation : VDict) (kv : String) (indv : Nat) : InitArgs :=
  { folder := .pystr selfFolder
    params := .pyconf variation
    name := selfModeler
    modeler := .pystr (selfName ++ "_" ++ kv ++ "_" ++ toString indv) }

/--
The merged configuration `_create_variation` builds (lines 378-381): a deep
copy of the base attribute's configuration slice, deep-updated with the
dot-flattened override when the override is not `None`.
-/
def variationConfig (baseSlice : VDict) (subDict : Option VDict) :
    Except String Val :=
  match subDict with
  | none => .ok (.vdict baseSlice)
  | some sd => do
    let flat ← complete_dict sd
    deep_update baseSlice flat

/-- The fields the prologue of `__init__` (lines 130-136) stores: it keeps
the four arguments and computes `_mode` as `"None"` when the modeler
argument is `None`, and otherwise reads `modeler.mode` — which raises
`AttributeError` when the value in the modeler slot is not a Modeler. -/
structure ElemFields where
  folder : PyV
  modeler : PyV
  mode : String
  name : PyV

/-- The prologue of `DrawableElement.__init__` (lines 130-136) as a partial
function of the received arguments. -/
def initFields (a : InitArgs) : Except String ElemFields :=
  match a.modeler with
  | .pynone =>
    .ok { folder := a.folder, modeler := a.modeler, mode := "None", name := a.name }
  | .pymodeler m =>
    .ok { folder := a.folder, modeler := a.modeler, mode := m, name := a.name }
  | _ => .error "AttributeError: object has no attribute mode"

/-- A variant-group member, recorded with the variant index parsed from the
configuration key that produced it (`<base>__<index>`) and its name. -/
structure Member where
  declaredIndex : Nat
  memberName : String

/-- The state of the `Variation` container (lines 581-620): the plain
Python list `variations`, the `to_draw` gate, and the `_len` counter. -/
structure Variation where
  variations : List Member
  to_draw : Bool
  len : Nat

/-- `Variation.append` (lines 618-620): increments `_len` and appends the
element to the list; there is no index-keyed insertion. -/
def Variation.append (g : Variation) (e : Member) : Variation :=
  { g with variations := g.variations ++ [e], len := g.len + 1 }

/-- `Variation.__getitem__` (lines 605-606): plain positional indexing into
the `variations` list (`None` models an `IndexError`). -/
def Variation.getItem (g : Variation) (i : Nat) : Option Member :=
  g.variations.get? i

/-- The `__dict__` of one ancestor element: the already-resolved attribute
names, each mapped to the identity (address) of the Python object stored
there.  Sharing an address is sharing the object. -/
abbrev ObjDict := List (String × Nat)

/-- Lookup in an ancestor's `__dict__`. -/
def olookup : ObjDict → String → Option Nat
  | [], _ => none
  | (k', a) :: rest, k => if k' = k then some a else olookup rest k

/--
`_search_in_parents` (lines 294-313): walk the parent chain (here the list
of the ancestors' `__dict__`s, nearest first); at the first ancestor whose
`__dict__` contains the key, store that same object (`setattr(self, key,
local_parent.__dict__[key])`) and stop; when the chain is exhausted raise
`KeyError`.
-/
def search_in_parents (className : String) (chain : List ObjDict) (key : String) :
    Except String Nat :=
  match chain with
  | [] =>
    .error ("KeyError: Key " ++ key ++ " should be defined in .yaml file in " ++
      className ++ " or in it's parents.")
  | d :: rest =>
    match olookup d key with
    | some a => .ok a
    | none => search_in_parents className rest key

/-- The condition of `_parse_dict_params` (lines 225-226) under which the
inheritance lookup runs: the declared attribute is absent from the local
configuration slice and its name does not start with an underscore. -/
def inheritanceTrigger (localSlice : VDict) (key : String) : Bool :=
  !dmem localSlice key && !pyStartsWith key "_"

mutual

/-- A constructed element as the draw phase sees it: its class name (used
in the `NotImplementedError` message), its name, its `to_draw` gate,
whether its class overrides `_draw` with a custom render step, and its
`__dict__` attributes in insertion order. -/
inductive Elem where
  | mk : String → String → Bool → Bool → EAttrs → Elem

/-- The ordered attributes of an element's `__dict__`. -/
inductive EAttrs where
  | nil : EAttrs
  | cons : String → EAttr → EAttrs → EAttrs

/-- One attribute value: a child `DrawableElement`, a `Variation` group
(with its own `to_draw` gate and its members in list order), or any other
(scalar) value. -/
inductive EAttr where
  | child : Elem → EAttr
  | group : Bool → ElemList → EAttr
  | scalar : EAttr

/-- A list of elements (the members of a variant group). -/
inductive ElemList where
  | enil : ElemList
  | econs : Elem → ElemList → ElemList

end

def Elem.className : Elem → String
  | .mk c _ _ _ _ => c

def Elem.name : Elem → String
  | .mk _ n _ _ _ => n

def Elem.toDraw : Elem → Bool
  | .mk _ _ td _ _ => td

def Elem.custom : Elem → Bool
  | .mk _ _ _ cu _ => cu

def Elem.attrs : Elem → EAttrs
  | .mk _ _ _ _ a => a

/-- The `children` property (lines 390-404): the non-underscore attributes
of `__dict__` whose value is a `DrawableElement` instance, in insertion
order.  `Variation` does not derive from `DrawableElement`, so variant
groups are not collected. -/
def childrenOf : EAttrs → List (String × Elem)
  | .nil => []
  | .cons n (.child e) rest =>
    if pyStartsWith n "_" then childrenOf rest else (n, e) :: childrenOf rest
  | .cons _ _ rest => childrenOf rest

mutual

/--
`DrawableElement.draw` (lines 570-575): a no-op unless `to_draw` holds,
otherwise it runs the element's render step (`_draw`).  The result is the
trace of element names whose render step ran, in invocation order, or the
first exception raised.  A custom `_draw` is modelled as delegating to
every child element and variant group in attribute order; the default
`_draw` (lines 556-568) delegates to the `children` attributes only and
raises `NotImplementedError` when there are none.
-/
def drawE : Elem → Except String (List String)
  | .mk cn n td cu attrs =>
    if !td then .ok []
    else if cu then
      match drawAttrsAll attrs with
      | .ok ts => .ok (n :: ts)
      | .error e => .error e
    else
      match drawChildren attrs with
      | .ok ts =>
        if (childrenOf attrs).isEmpty then
          .error ("NotImplementedError: _draw() of " ++ cn ++ " is not implemented")
        else .ok (n :: ts)
      | .error e => .error e

/-- The loop of the default `_draw` (lines 562-564): invoke `draw` on every
`children` attribute in order. -/
def drawChildren : EAttrs → Except String (List String)
  | .nil => .ok []
  | .cons nm (.child e) rest =>
    if pyStartsWith nm "_" then drawChildren rest
    else
      match drawE e with
      | .ok t =>
        match drawChildren rest with
        | .ok ts => .ok (t ++ ts)
        | .error e' => .error e'
      | .error e' => .error e'
  | .cons _ _ rest => drawChildren rest

/-- A custom render step, modelled as invoking the drawable contract on
every child element and variant group attribute in order. -/
def drawAttrsAll : EAttrs → Except String (List String)
  | .nil => .ok []
  | .cons nm (.child e) rest =>
    if pyStartsWith nm "_" then drawAttrsAll rest
    else
      match drawE e with
      | .ok t =>
        match drawAttrsAll rest with
        | .ok ts => .ok (t ++ ts)
        | .error e' => .error e'
      | .error e' => .error e'
  | .cons _ (.group gate ms) rest =>
    match (if gate then drawMembers ms else .ok []) with
    | .ok t =>
      match drawAttrsAll rest with
      | .ok ts => .ok (t ++ ts)
      | .error e' => .error e'
    | .error e' => .error e'
  | .cons _ .scalar rest => drawAttrsAll rest

/-- `Variation.draw`'s member loop (lines 622-626): invoke `draw` on every
member in list order. -/
def drawMembers : ElemList → Except String (List String)
  | .enil => .ok []
  | .econs e rest =>
    match drawE e with
    | .ok t =>
      match drawMembers rest with
      | .ok ts => .ok (t ++ ts)
      | .error e' => .error e'
    | .error e' => .error e'

end

/-- `Variation.draw` (lines 622-626): gated by the group's `to_draw`, then
every member in index order. -/
def drawGroup (gate : Bool) (ms : ElemList) : Except String (List String) :=
  if gate then drawMembers ms else .ok []

/-- The default render step `_draw` (lines 556-568) in isolation: draw the
`children` attributes in order, then raise `NotImplementedError` when the
element has none. -/
def defaultRender (cn n : String) (attrs : EAttrs) : Except String (List String) :=
  match drawChildren attrs with
  | .ok ts =>
    if (childrenOf attrs).isEmpty then
      .error ("NotImplementedError: _draw() of " ++ cn ++ " is not implemented")
    else .ok (n :: ts)
  | .error e => .error e

mutual

/-- The names of all strict descendants of an element: child elements,
variant-group members, and their descendants. -/
def descendantsE : Elem → List String
  | .mk _ _ _ _ attrs => descendantsA attrs

def descendantsA : EAttrs → List String
  | .nil => []
  | .cons _ (.child e) rest => (Elem.name e :: descendantsE e) ++ descendantsA rest
  | .cons _ (.group _ ms) rest => descendantsL ms ++ descendantsA rest
  | .cons _ .scalar rest => descendantsA rest

def descendantsL : ElemList → List String
  | .enil => []
  | .econs e rest => (Elem.name e :: descendantsE e) ++ descendantsL rest

end

/-- Keep only the attributes the `children` property would report,
dropping variant groups, scalars, and underscore-named attributes. -/
def onlyChildAttrs : EAttrs → EAttrs
  | .nil => .nil
  | .cons n (.child e) rest =>
    if pyStartsWith n "_" then onlyChildAttrs rest
    else .cons n (.child e) (onlyChildAttrs rest)
  | .cons _ _ rest => onlyChildAttrs rest

/-- Sequentially draw a list of named elements, concatenating traces. -/
def drawSeq : List (String × Elem) → Except String (List String)
  | [] => .ok []
  | (_, e) :: rest =>
    match drawE e with
    | .ok t =>
      match drawSeq rest with
      | .ok ts => .ok (t ++ ts)
      | .error e' => .error e'
    | .error e' => .error e'

mutual

/-- The live element tree as `_check_existing_path` traverses it with
`getattr`: a node exposes its non-underscore attribute names (a variant
group exposes the original element's attributes, which `Variation.__init__`
copies onto the group object). -/
inductive PTree where
  | node : PAttrs → PTree

/-- Ordered named sub-attributes of a live node. -/
inductive PAttrs where
  | pnil : PAttrs
  | pcons : String → PTree → PAttrs → PAttrs

end

/-- `getattr(obj, k, None)` on a live node. -/
def tget : PTree → String → Option PTree
  | .node attrs, k => go attrs k
where
  go : PAttrs → String → Option PTree
  | .pnil, _ => none
  | .pcons k' t rest, k => if k' = k then some t else go rest k

/-- The non-underscore attribute names of a live node, in order (what
`[el for el in dir(obj) if not el.startswith("_")]` was meant to list). -/
def pubAttrNames : PTree → List String
  | .node attrs => go attrs
where
  go : PAttrs → List String
  | .pnil => []
  | .pcons k _ rest => k :: go rest

/-- `dir(local_attr)` filtered to non-underscore names, for a possibly-None
`local_attr` as in `_check_existing_path` (lines 470-473): every attribute
of `None` starts with an underscore, so `dir(None)` contributes nothing. -/
def pubDir : Option PTree → List String
  | none => []
  | some t => pubAttrNames t

/-- The data of the `ValueError` `_check_existing_path` raises: the full
path, the segment at which resolution stopped, and the listed
possibilities. -/
structure PathErr where
  errPath : String
  stoppedAt : String
  possibilities : List String

/-- Worker of `_check_existing_path` (lines 466-477); note the faithful
slip: `local_attr` is reassigned by `getattr` before the possibilities are
computed from it, so the possibilities are those of `None`. -/
def checkPathGo (t : PTree) (path : String) : List String → Except PathErr Bool
  | [] => .ok true
  | k :: rest =>
    let local_attr := tget t k
    match local_attr with
    | some t' => checkPathGo t' path rest
    | none =>
      .error { errPath := path, stoppedAt := k, possibilities := pubDir none }

/-- `_check_existing_path(path)` (lines 466-477): resolve each dot-separated
segment with `getattr`; return `True`, or raise naming the path, the failing
segment and the possibilities list. -/
def check_existing_path (t : PTree) (path : String) : Except PathErr Bool :=
  checkPathGo t path (pySplit path ".")

/-- Resolve a path's segments against the live tree (the intended point of
failure of `_check_existing_path`). -/
def resolvePath : PTree → List String → Option PTree
  | t, [] => some t
  | t, k :: rest =>
    match tget t k with
    | some t' => resolvePath t' rest
    | none => none

/-- Render the `ValueError` message of `_check_existing_path`. -/
def renderPathErr (e : PathErr) : String :=
  "ValueError: Path of variation " ++ e.errPath ++ " does not exist at " ++
    e.stoppedAt ++ ". The possiblities are [" ++
    String.intercalate ", " e.possibilities ++ "]"

/-- A sweep request: dot-paths mapped to equal-length lists of override
values, in insertion order (the `variation` parameter of
`create_variation_yaml_file`). -/
abbrev Sweep := List (String × List Val)

/-- Python dict assignment on a sweep group (`dict_vars_div[k_0][key] = value`). -/
def sset : Sweep → String → List Val → Sweep
  | [], k, v => [(k, v)]
  | (k', v') :: rest, k, v =>
    if k' = k then (k, v) :: rest else (k', v') :: sset rest k v

/-- Assoc lookup for `dict_vars_len`. -/
def lensLookup : List (String × Nat) → String → Option Nat
  | [], _ => none
  | (k', n) :: rest, k => if k' = k then some n else lensLookup rest k

/-- Append a sweep entry into its top-level group (`dict_vars_div[k_0][key] = value`). -/
def divInsert : List (String × Sweep) → String → String → List Val →
    List (String × Sweep)
  | [], k0, k, v => [(k0, [(k, v)])]
  | (k0', s) :: rest, k0, k, v =>
    if k0' = k0 then (k0, sset s k v) :: rest
    else (k0', s) :: divInsert rest k0 k v

/--
The first loop of `create_variation_yaml_file` (lines 520-532): check every
path against the live tree, split off its top-level segment `k_0`, and
group the sweeps by `k_0`, requiring equal lengths within one group.
-/
def groupSweepsGo (t : PTree) : Sweep → List (String × Nat) →
    List (String × Sweep) →
    Except String (List (String × Nat) × List (String × Sweep))
  | [], lens, divs => .ok (lens, divs)
  | (key, value) :: rest, lens, divs =>
    match check_existing_path t key with
    | .error e => .error (renderPathErr e)
    | .ok _ =>
      let k0 := ((pySplit key ".").headD "")
      match lensLookup lens k0 with
      | some n =>
        if value.length ≠ n then
          .error ("ValueError: All variation of " ++ k0 ++
            " should be the same lengths.")
        else groupSweepsGo t rest lens (divInsert divs k0 key value)
      | none =>
        groupSweepsGo t rest (lens ++ [(k0, value.length)])
          (divs ++ [(k0, [(key, value)])])

/--
The nested-path insertion of `_create_dictionary_variation`
(lines 494-501): descend along the intermediate segments creating empty
dicts as needed, raise `ValueError` when the leaf already exists ("Same
variable is sweeped twice."), and a `TypeError` when descending into a
non-dict. -/
def insertVariantPath (l : VDict) : List String → Option Val → Except String VDict
  | [], _ => .ok l
  | [last], v? =>
    match dget l last with
    | some _ => .error "ValueError: Same variable is sweeped twice."
    | none =>
      match v? with
      | some v => .ok (dset l last v)
      | none => .error "IndexError: list index out of range"
  | k :: rest, v? =>
    match dget l k with
    | none =>
      match insertVariantPath .nil rest v? with
      | .ok sub => .ok (dset l k (.vdict sub))
      | .error e => .error e
    | some (.vdict sub) =>
      match insertVariantPath sub rest v? with
      | .ok sub' => .ok (dset l k (.vdict sub'))
      | .error e => .error e
    | some _ => .error "TypeError: membership test on a non-dict"

/-- The inner loop of `_create_dictionary_variation` for one index `ind`:
fold the group's sweep entries into the fresh `result[f"{sub_key}__{ind}"]`
dict.  The leaf is `splt[-1]` and the intermediates are `splt[1:-1]`, so a
dot-free path re-inserts its own single segment; a missing `var_lst[ind]`
raises `IndexError` only after the duplicate-leaf check passes, as in the
source. -/
def buildVariantEntryGo (subKey : String) (ind : Nat) :
    Sweep → VDict → Except String VDict
  | [], acc => .ok acc
  | (k, varLst) :: rest, acc =>
    let splt := pySplit k "."
    if splt.headD "" = subKey then
      match insertVariantPath acc
          (if splt.length ≤ 1 then splt else splt.tail) (varLst.get? ind) with
      | .ok acc' => buildVariantEntryGo subKey ind rest acc'
      | .error e => .error e
    else
      .error ("ImplementationError: Subvariation is not for the right key (" ++
        subKey ++ ")")

/-- The outer loop of `_create_dictionary_variation` (lines 479-502) over
`ind in range(sub_len)`, producing `sub_key__ind` entries in index order. -/
def createDictVariationGo (subKey : String) (subVar : Sweep) :
    Nat → Nat → VDict → Except String VDict
  | _, 0, acc => .ok acc
  | ind, todo + 1, acc =>
    match buildVariantEntryGo subKey ind subVar .nil with
    | .ok entry =>
      createDictVariationGo subKey subVar (ind + 1) todo
        (dset acc (subKey ++ "__" ++ toString ind) (.vdict entry))
    | .error e => .error e

/-- `_create_dictionary_variation(sub_key, sub_len, sub_variation)`. -/
def create_dictionary_variation (subKey : String) (subLen : Nat)
    (subVar : Sweep) : Except String VDict :=
  createDictVariationGo subKey subVar 0 subLen .nil

/-- The key filter of `create_variation_yaml_file` (lines 536-543): drop
every key whose last `__`-separated segment is all digits (the
pre-existing variant-indexed keys) from the copied base document. -/
def lastSegDigit (k : String) : Bool :=
  pyIsDigit (((pySplit k "__").getLast?).getD "")

/-- Remove the variant-indexed keys from the copied base document. -/
def dropIndexedKeys : VDict → VDict
  | .nil => .nil
  | .cons k v rest =>
    if lastSegDigit k then dropIndexedKeys rest
    else .cons k v (dropIndexedKeys rest)

/-- Python `dict.update`: assign every entry of the update, in order. -/
def pyUpdate : VDict → VDict → VDict
  | d, .nil => d
  | d, .cons k v rest => pyUpdate (dset d k v) rest

/-- The final loop of `create_variation_yaml_file` (lines 545-548):
synthesize one indexed dict per group and `update` the document with it. -/
def applyGroupsGo (lens : List (String × Nat)) :
    VDict → List (String × Sweep) → Except String VDict
  | yaml, [] => .ok yaml
  | yaml, (k0, subvar) :: rest =>
    match create_dictionary_variation k0 ((lensLookup lens k0).getD 0) subvar with
    | .ok sub => applyGroupsGo lens (pyUpdate yaml sub) rest
    | .error e => .error e

/--
`create_variation_yaml_file` (lines 504-554), up to the final file write:
validate and group the sweeps, deep-copy the base document, remove its
pre-existing variant-indexed keys, and insert the freshly synthesized
indexed entries. -/
def create_variation_yaml (t : PTree) (base : VDict) (variation : Sweep) :
    Except String VDict :=
  match groupSweepsGo t variation [] [] with
  | .ok (lens, divs) => applyGroupsGo lens (dropIndexedKeys base) divs
  | .error e => .error e

mutual

/-- A document as loaded from disk (`yaml.safe_load` output): a pure value
with no object identity yet. -/
inductive FVal where
  | fstr : String → FVal
  | fint : Int → FVal
  | fdict : FDict → FVal

/-- The ordered entries of a loaded document mapping. -/
inductive FDict where
  | fnil : FDict
  | fcons : String → FVal → FDict → FDict

end

/-- A heap value: a scalar, or a reference to a dictionary object living at
an address.  Two entries holding `href a` alias the same dictionary. -/
inductive HVal where
  | hstr : String → HVal
  | hint : Int → HVal
  | href : Nat → HVal

abbrev HDict := List (String × HVal)

/-- The mutable object store: dictionary objects by address, plus the next
fresh address. -/
structure Heap where
  cells : List (Nat × HDict)
  next : Nat

/-- Read the dictionary object at an address. -/
def hget (h : Heap) (a : Nat) : Option HDict :=
  go h.cells a
where
  go : List (Nat × HDict) → Nat → Option HDict
  | [], _ => none
  | (a', d) :: rest, a => if a' = a then some d else go rest a

/-- Assignment semantics on heap-stored dictionaries. -/
def hdset : HDict → String → HVal → HDict
  | [], k, v => [(k, v)]
  | (k', v') :: rest, k, v =>
    if k' = k then (k, v) :: rest else (k', v') :: hdset rest k v

/-- Lookup in a heap-stored dictionary. -/
def hdget : HDict → String → Option HVal
  | [], _ => none
  | (k', v') :: rest, k => if k' = k then some v' else hdget rest k

/-- Overwrite the dictionary object at an existing address, in place (the
address keeps its position in the store; absent addresses are appended). -/
def hsetCell (h : Heap) (a : Nat) (d : HDict) : Heap :=
  { h with cells := go h.cells a d }
where
  go : List (Nat × HDict) → Nat → HDict → List (Nat × HDict)
  | [], a, d => [(a, d)]
  | (a', d') :: rest, a, d =>
    if a' = a then (a, d) :: rest else (a', d') :: go rest a d

/-- `dict_params[k] = v` on the dictionary object at address `a`. -/
def hsetEntry (h : Heap) (a : Nat) (k : String) (v : HVal) : Heap :=
  match hget h a with
  | some d => hsetCell h a (hdset d k v)
  | none => h

mutual

/-- Allocate a freshly loaded document on the heap, giving every nested
mapping a fresh address. -/
def allocVal (h : Heap) : FVal → Heap × HVal
  | .fstr s => (h, .hstr s)
  | .fint n => (h, .hint n)
  | .fdict d =>
    let a := h.next
    let h1 : Heap := { cells := h.cells ++ [(a, [])], next := h.next + 1 }
    let r := allocDict h1 d
    (hsetCell r.1 a r.2, .href a)

/-- Allocate every entry of a loaded document mapping. -/
def allocDict (h : Heap) : FDict → Heap × HDict
  | .fnil => (h, [])
  | .fcons k v rest =>
    let r1 := allocVal h v
    let r2 := allocDict r1.1 rest
    (r2.1, (k, r1.2) :: r2.2)

end

/-- The named documents available on disk, as `_load_dict_from_file` /
`yaml.safe_load` would return them. -/
abbrev FileSys := List (String × FVal)

/-- Look a document up by file name. -/
def fsFind : FileSys → String → Option FVal
  | [], _ => none
  | (n, d) :: rest, name => if n = name then some d else fsFind rest name

/-- The first loop of `_load_files` (lines 190-192): for every entry of the
dictionary at `a` whose value is a string ending in `.yaml`, load that
document and assign it over the entry, in place. -/
def loadPass1 (fsys : FileSys) (a : Nat) : Heap → List (String × HVal) →
    Except String Heap
  | h, [] => .ok h
  | h, (k, .hstr str) :: rest =>
    if pyEndsWith str ".yaml" then
      match fsFind fsys str with
      | some doc =>
        loadPass1 fsys a
          (hsetEntry (allocVal h doc).1 a k (allocVal h doc).2) rest
      | none => .error ("FileNotFoundError: " ++ str)
    else loadPass1 fsys a h rest
  | h, _ :: rest => loadPass1 fsys a h rest

/-- The keys of a heap-stored dictionary, in order. -/
def hdkeys : HDict → List String
  | [] => []
  | (k, _) :: rest => k :: hdkeys rest

/--
`_load_files` (lines 189-196) on the dictionary object at address `a`:
first replace every `.yaml` string entry by its freshly loaded document,
then recurse into every entry that is (now) a dictionary, assigning the
recursion's result back over the entry; finally return the same dictionary
(here: the same address).  The fuel only bounds the recursion depth
(Python's recursion limit). -/
def loadFiles (fsys : FileSys) : Nat → Heap → Nat → Except String (Heap × Nat)
  | 0, _, _ => .error "RecursionError: maximum recursion depth exceeded"
  | fuel + 1, h, a =>
    match hget h a with
    | none => .error "invalid reference"
    | some entries =>
      match loadPass1 fsys a h entries with
      | .error e => .error e
      | .ok h1 =>
        match hget h1 a with
        | none => .error "invalid reference"
        | some entries1 =>
          let step := fun (acc : Except String Heap) (k : String) =>
            match acc with
            | .error e => .error e
            | .ok hh =>
              match (hget hh a).bind (fun d => hdget d k) with
              | some (.href b) =>
                match loadFiles fsys fuel hh b with
                | .ok (hh', b') => .ok (hsetEntry hh' a k (.href b'))
                | .error e => .error e
              | _ => .ok hh
          match (hdkeys entries1).foldl step (.ok h1) with
          | .ok h2 => .ok (h2, a)
          | .error e => .error e

/-- The root branch of `__init__` (lines 144-148): a root element (no
parent) stores `self._dict_params = self._load_files(dict_params)` —
whatever address `_load_files` returns becomes the element's stored
configuration. -/
def rootInitConfig (fsys : FileSys) (fuel : Nat) (h : Heap) (paramsAddr : Nat) :
    Except String (Heap × Nat) :=
  loadFiles fsys fuel h paramsAddr

/-- A key freshly synthesized by a sweep: `k0__i` where `k0` is the
top-level segment of one of the sweep's paths. -/
def isSynthKey (var : Sweep) (k : String) : Prop :=
  ∃ (p : String) (vs : List Val) (i : Nat),
    (p, vs) ∈ var ∧ k = (pySplit p ".").headD "" ++ "__" ++ toString i

/-- A live tree with one attribute `x` exposing `y` and `z` (the stand-in
structure for the sweep examples). -/
def sweepTreeExample : PTree :=
  .node (.pcons "x"
    (.node (.pcons "y" (.node .pnil) (.pcons "z" (.node .pnil) .pnil)))
    .pnil)

/-- A base document holding `x: {y: 0, z: 0}` plus a stale pre-existing
variant-indexed entry `x__7`. -/
def sweepBaseExample : VDict :=
  .ofList [("x", .vdict (.ofList [("y", .vint 0), ("z", .vint 0)])),
           ("x__7", .vdict (.ofList [("y", .vint 99)]))]

/-- The sweep `{"x.y": [1, 2], "x.z": [3, 4]}`. -/
def sweepExample : Sweep :=
  [("x.y", [.vint 1, .vint 2]), ("x.z", [.vint 3, .vint 4])]

/-- The synthesized document for `sweepExample` over `sweepBaseExample`:
the base minus its variant-indexed keys, plus `x__0` and `x__1`. -/
def sweepResultExample : VDict :=
  .ofList [("x", .vdict (.ofList [("y", .vint 0), ("z", .vint 0)])),
           ("x__0", .vdict (.ofList [("y", .vint 1), ("z", .vint 3)])),
           ("x__1", .vdict (.ofList [("y", .vint 2), ("z", .vint 4)]))]

/-- A live tree whose root exposes `transmon`, which exposes `junction` and
`lj`. -/
def pathTreeExample : PTree :=
  .node (.pcons "transmon"
    (.node (.pcons "junction" (.node .pnil) (.pcons "lj" (.node .pnil) .pnil)))
    .pnil)

/-- A leaf element with a custom render step. -/
def memberExample : Elem :=
  .mk "Qubit" "m" true true .nil

/-- An element with no custom render step whose only drawable-like
attribute is a variant group containing one member. -/
def groupOnlyExample : Elem :=
  .mk "Chip" "chip" true false
    (.cons "g" (.group true (.econs memberExample .enil)) .nil)

/-- An element gated off (`to_draw = False`) holding a child whose own
`to_draw` is true. -/
def gatedExample : Elem :=
  .mk "Chip" "chip" false false (.cons "c" (.child memberExample) .nil)

/-- Two documents on disk: `sub.yaml` holds a mapping whose entry again
references `inner.yaml`. -/
def fsysExample : FileSys :=
  [("sub.yaml", .fdict (.fcons "a" (.fstr "inner.yaml") .fnil)),
   ("inner.yaml", .fint 3)]

/-- The caller's params dictionary, living at address 0: one `.yaml`
reference, one plain value, and one pre-existing nested dictionary living
at address 7. -/
def heapExample : Heap :=
  ⟨[(0, [("sub", .hstr "sub.yaml"), ("w", .hint 5), ("nested", .href 7)]),
    (7, [("q", .hint 9)])], 8⟩

/-- `heapExample` after root construction: the dictionary at address 0 was
mutated in place (`sub` now references the freshly loaded document at the
fresh address 8, itself recursively loaded), while `w` and the pre-existing
nested dictionary at address 7 are untouched and keep their addresses. -/
def loadedHeapExample : Heap :=
  ⟨[(0, [("sub", .href 8), ("w", .hint 5), ("nested", .href 7)]),
    (7, [("q", .hint 9)]),
    (8, [("a", .hint 3)])], 9⟩

/-! Theorems. -/

/-- `deep_update` implements exactly the amended merge policy. -/
theorem deepUpdate_refines : (base : Val) → (upd : VDict) →
    deepUpdateGo base upd = mergeAmendedVal upd base
  | _, .nil => rfl
  | .vdict l, .cons k (.vdict u) rest => by
    simp only [deepUpdateGo, mergeAmendedVal]
    rw [deepUpdate_refines ((dget l k).getD (.vdict .nil)) u]
    cases mergeAmendedVal u ((dget l k).getD (.vdict .nil)) with
    | ok s => simpa using deepUpdate_refines (.vdict (dset l k s)) rest
    | error e => rfl
  | .vstr _, .cons _ (.vdict _) _ => rfl
  | .vint _, .cons _ (.vdict _) _ => rfl
  | .vdict l, .cons k (.vstr s) rest =>
    deepUpdate_refines (.vdict (dset l k (.vstr s))) rest
  | .vdict l, .cons k (.vint n) rest =>
    deepUpdate_refines (.vdict (dset l k (.vint n))) rest
  | .vstr _, .cons _ (.vstr _) _ => rfl
  | .vstr _, .cons _ (.vint _) _ => rfl
  | .vint _, .cons _ (.vstr _) _ => rfl
  | .vint _, .cons _ (.vint _) _ => rfl

/-- C1: `_create_variation`'s constructor call swaps the name and modeler
arguments: the third positional slot (`name`) receives the element's
modeler and the fourth (`modeler`) receives the constructed name string
`self._name + "_" + kv + "_" + indv`, so initializing the variant reads
`.mode` off a string and raises `AttributeError` instead of building the
element the claim describes. -/
theorem C1_variation_swapped_args :
    (createVariationCallArgs "folder" "chip" (.pymodeler "hfss")
        (.ofList [("lj", .vint 1)]) "x" 0).name = .pymodeler "hfss" ∧
    (createVariationCallArgs "folder" "chip" (.pymodeler "hfss")
        (.ofList [("lj", .vint 1)]) "x" 0).modeler = .pystr "chip_x_0" ∧
    (createVariationCallArgs "folder" "chip" (.pymodeler "hfss")
        (.ofList [("lj", .vint 1)]) "x" 0).name ≠ .pystr "chip_x_0" ∧
    initFields (createVariationCallArgs "folder" "chip" (.pymodeler "hfss")
        (.ofList [("lj", .vint 1)]) "x" 0) =
      .error "AttributeError: object has no attribute mode" := by
  refine ⟨rfl, rfl, ?_, rfl⟩
  rw [show (createVariationCallArgs "folder" "chip" (.pymodeler "hfss")
        (.ofList [("lj", .vint 1)]) "x" 0).name = .pymodeler "hfss" from rfl]
  simp

/-- C2 fails on both suffixes: a string-typed attribute ending in `__np` is
registered as a design variable in interactive mode (the claim says it is
stored raw), and an attribute ending in `__n` is stored raw (the claim says
it is parsed). -/
theorem C2_counterexample :
    set_element ⟨true, "hfss", "chip"⟩ "a__np" false (.vstr "5um") =
      .registered "chip_a__np" (.vstr "5um") ∧
    set_element ⟨true, "hfss", "chip"⟩ "a__np" false (.vstr "5um") ≠
      .raw (.vstr "5um") ∧
    set_element ⟨true, "hfss", "chip"⟩ "a__n" false (.vstr "5um") =
      .raw (.vstr "5um") ∧
    set_element ⟨true, "hfss", "chip"⟩ "a__n" false (.vstr "5um") ≠
      .parsed (.vstr "5um") := by
  refine ⟨rfl, ?_, rfl, ?_⟩
  · rw [show set_element ⟨true, "hfss", "chip"⟩ "a__np" false (.vstr "5um") =
      .registered "chip_a__np" (.vstr "5um") from rfl]
    simp
  · rw [show set_element ⟨true, "hfss", "chip"⟩ "a__n" false (.vstr "5um") =
      .raw (.vstr "5um") from rfl]
    simp

/-- C2 (amended): an attribute name ending in `__n` is stored raw
(pass-through, never parsed, never registered) in every mode; the `__np`
suffix has no special effect, so a non-numeric attribute with a modeler in
a non-gds mode is registered as a design variable under
`elementName + "_" + attributeName` whatever its suffix. -/
theorem C2_amended :
    (∀ (env : ModeEnv) (key : String) (ty : Bool) (v : Val),
      pyEndsWith key "__n" = true → set_element env key ty v = .raw v) ∧
    (∀ (env : ModeEnv) (key : String) (v : Val),
      env.modelerPresent = true → env.mode ≠ "gds" →
      pyEndsWith key "__n" = false →
      set_element env key false v =
        .registered (env.selfName ++ "_" ++ key) v) := by
  constructor
  · intro env key ty v h
    simp [set_element, h]
  · intro env key v hm hg hn
    have : (env.mode == "gds") = false := by
      simpa using hg
    simp [set_element, hm, hn, this]

/-- Witness for `C2_amended` at concrete inputs. -/
theorem C2_amended_witness :
    set_element ⟨true, "hfss", "chip"⟩ "a__n" false (.vstr "5um") =
      .raw (.vstr "5um") ∧
    set_element ⟨true, "hfss", "chip"⟩ "a__np" false (.vstr "5um") =
      .registered ("chip" ++ "_" ++ "a__np") (.vstr "5um") :=
  ⟨C2_amended.1 ⟨true, "hfss", "chip"⟩ "a__n" false (.vstr "5um") rfl,
   C2_amended.2 ⟨true, "hfss", "chip"⟩ "a__np" (.vstr "5um") rfl
     (by intro h; nomatch h) rfl⟩

/-- C5 fails at a base value that is not a mapping under an override value
that is a mapping: the code raises (`deep_update` of base `{b: 5}` with
override `{b: {c: 9}}` hits an item assignment on `5`) instead of
replacing the base value outright as the claim's policy would. -/
theorem C5_counterexample :
    deep_update (.ofList [("b", .vint 5)])
        (.ofList [("b", .vdict (.ofList [("c", .vint 9)]))]) =
      .error "TypeError: object does not support item assignment" ∧
    mergeSpecClaim (.ofList [("b", .vint 5)])
        (.ofList [("b", .vdict (.ofList [("c", .vint 9)]))]) =
      .ofList [("b", .vdict (.ofList [("c", .vint 9)]))] ∧
    deep_update (.ofList [("b", .vint 5)])
        (.ofList [("b", .vdict (.ofList [("c", .vint 9)]))]) ≠
      .ok (.vdict (mergeSpecClaim (.ofList [("b", .vint 5)])
        (.ofList [("b", .vdict (.ofList [("c", .vint 9)]))]))) :=
  ⟨rfl, rfl, fun h => nomatch h⟩

/-- C5 (amended): dot-path keys are flattened into nested structure and the
result is deep-merged onto the cloned base slice; the merge recurses
exactly when the override value is a mapping and the base value at that key
is a mapping or absent, fails when the base value is present and not a
mapping, replaces the base value outright when the override value is not a
mapping, and the claim's concrete flatten and merge examples hold. -/
theorem C5_amended :
    (∀ (base : Val) (upd : VDict),
      deepUpdateGo base upd = mergeAmendedVal upd base) ∧
    complete_dict (.ofList [("a.b.c", .vint 7)]) =
      .ok (.ofList [("a", .vdict (.ofList [("b", .vdict
        (.ofList [("c", .vint 7)]))]))]) ∧
    deep_update
        (.ofList [("a", .vint 1),
                  ("b", .vdict (.ofList [("c", .vint 2), ("d", .vint 3)]))])
        (.ofList [("b", .vdict (.ofList [("c", .vint 9)]))]) =
      .ok (.vdict (.ofList [("a", .vint 1),
        ("b", .vdict (.ofList [("c", .vint 9), ("d", .vint 3)]))])) :=
  ⟨fun base upd => deepUpdate_refines base upd, rfl, rfl⟩

/-- C6 fails on the code's list-backed group: a member created from the
variant key `x__1` sits at list position 0, so `group[1]` is an
`IndexError` rather than the member, and processing the same declared
index again appends a second member instead of replacing. -/
theorem C6_counterexample :
    (Variation.getItem
      (Variation.append ⟨[], true, 0⟩ ⟨1, "chip_x_1"⟩) 1) = none ∧
    (Variation.append (Variation.append ⟨[], true, 0⟩ ⟨1, "chip_x_1"⟩)
      ⟨1, "chip_x_1b"⟩).variations.length = 2 ∧
    (Variation.append (Variation.append ⟨[], true, 0⟩ ⟨1, "chip_x_1"⟩)
      ⟨1, "chip_x_1b"⟩).len = 2 :=
  ⟨rfl, rfl, rfl⟩

/-- C6 (amended): a `Variation` group stores its members in a plain list in
insertion order; `append` always appends at the end and increments `_len`,
and `__getitem__` is positional indexing into that list (the most recently
appended member is at position `len(variations) - 1`), not lookup by the
declared variant index. -/
theorem C6_amended :
    (∀ (g : Variation) (e : Member),
      (Variation.append g e).variations = g.variations ++ [e] ∧
      (Variation.append g e).len = g.len + 1) ∧
    (∀ (g : Variation) (i : Nat),
      Variation.getItem g i = g.variations.get? i) ∧
    (∀ (g : Variation) (e : Member),
      Variation.getItem (Variation.append g e) g.variations.length = some e) := by
  refine ⟨fun g e => ⟨rfl, rfl⟩, fun g i => rfl, fun g e => ?_⟩
  simp [Variation.getItem, Variation.append, List.getElem?_concat_length]

/-- C9: an element whose `to_draw` is false draws nothing: its render step
is not invoked and no descendant's render step is invoked, whatever the
descendants' own gates say. -/
theorem C9_draw_gating (e : Elem) (h : e.toDraw = false) :
    drawE e = .ok [] ∧
    ∀ t, drawE e = .ok t →
      ∀ s, s = e.name ∨ s ∈ descendantsE e → s ∉ t := by
  cases e with
  | mk cn n td cu attrs =>
    simp only [Elem.toDraw] at h
    subst h
    refine ⟨rfl, ?_⟩
    intro t ht s _
    rw [show drawE (Elem.mk cn n false cu attrs) = .ok [] from rfl] at ht
    cases ht
    simp

/-- Witness for `C9_draw_gating`: a gated element with an ungated custom
child draws nothing. -/
theorem C9_witness :
    drawE gatedExample = .ok [] ∧
    ∀ t, drawE gatedExample = .ok t →
      ∀ s, s = gatedExample.name ∨ s ∈ descendantsE gatedExample → s ∉ t :=
  C9_draw_gating gatedExample rfl

/-- C4: inheritance lookup resolves a missing attribute to the value stored
by the nearest ancestor on the parent chain that has it (the very address
held in that ancestor's `__dict__` — a shared reference, with earlier
ancestors all lacking the attribute), and raises the `KeyError` when no
ancestor has it. -/
theorem C4_inheritance_nearest_identity (cn : String) (chain : List ObjDict)
    (key : String) :
    (∀ a, search_in_parents cn chain key = .ok a →
      ∃ i d, chain.get? i = some d ∧ olookup d key = some a ∧
        ∀ j, j < i → ∀ d', chain.get? j = some d' → olookup d' key = none) ∧
    ((∀ d, d ∈ chain → olookup d key = none) →
      search_in_parents cn chain key =
        .error ("KeyError: Key " ++ key ++ " should be defined in .yaml file in " ++
          cn ++ " or in it's parents.")) := by
  induction chain with
  | nil =>
    refine ⟨?_, fun _ => rfl⟩
    intro a ha
    exact absurd ha (by simp [search_in_parents])
  | cons d rest ih =>
    constructor
    · intro a ha
      simp only [search_in_parents] at ha
      cases hd : olookup d key with
      | some a' =>
        rw [hd] at ha
        cases ha
        exact ⟨0, d, rfl, hd, fun j hj => absurd hj (Nat.not_lt_zero j)⟩
      | none =>
        rw [hd] at ha
        obtain ⟨i, d', hgi, hlook, hmin⟩ := ih.1 a ha
        refine ⟨i + 1, d', by simpa using hgi, hlook, ?_⟩
        intro j hj dd hdd
        cases j with
        | zero =>
          simp only [List.get?_cons_zero, Option.some.injEq] at hdd
          rw [← hdd]
          exact hd
        | succ j' =>
          exact hmin j' (by omega) dd (by simpa using hdd)
    · intro hall
      simp only [search_in_parents]
      cases hd : olookup d key with
      | some a' => exact absurd (hall d (by simp)) (by simp [hd])
      | none => exact ih.2 (fun d' hd' => hall d' (by simp [hd']))

/-- Witness for `C4_inheritance_nearest_identity`: the nearest of two
ancestors defining `w` supplies the stored address 7, and a chain without
`w` raises the `KeyError`. -/
theorem C4_witness :
    (∃ i d, ([[("a", 5)], [("w", 7)], [("w", 9)]] : List ObjDict).get? i = some d ∧
      olookup d "w" = some 7 ∧
      ∀ j, j < i → ∀ d',
        ([[("a", 5)], [("w", 7)], [("w", 9)]] : List ObjDict).get? j = some d' →
        olookup d' "w" = none) ∧
    search_in_parents "Chip" [[("a", 5)]] "w" =
      .error ("KeyError: Key " ++ "w" ++ " should be defined in .yaml file in " ++
        "Chip" ++ " or in it's parents.") :=
  ⟨(C4_inheritance_nearest_identity "Chip"
      [[("a", 5)], [("w", 7)], [("w", 9)]] "w").1 7 rfl,
   (C4_inheritance_nearest_identity "Chip" [[("a", 5)]] "w").2 (by
      intro d hd
      simp only [List.mem_singleton] at hd
      subst hd
      rfl)⟩

/-- Every error `_check_existing_path` raises carries an empty
possibilities list: the list is computed from `local_attr` after it has
been overwritten with `None`. -/
theorem checkPathGo_possibilities : ∀ (segs : List String) (t : PTree)
    (path : String) (e : PathErr),
    checkPathGo t path segs = .error e → e.possibilities = []
  | [], _, _, _ => by
    intro h
    exact absurd h (by simp [checkPathGo])
  | k :: rest, t, path, e => by
    intro h
    simp only [checkPathGo] at h
    cases hg : tget t k with
    | some t' =>
      rw [hg] at h
      exact checkPathGo_possibilities rest t' path e h
    | none =>
      rw [hg] at h
      cases h
      rfl

/-- C8: when a sweep path fails to resolve, the raised error's
possibilities list is always empty — the code lists the public attributes
of `None` instead of those of the node where resolution stopped; at the
concrete failing input the stopped-at node does expose `junction` and
`lj`, none of which are listed. -/
theorem C8_path_error_lists_none :
    check_existing_path pathTreeExample "transmon.nope" =
      .error { errPath := "transmon.nope", stoppedAt := "nope",
               possibilities := [] } ∧
    (resolvePath pathTreeExample ["transmon"]).map pubAttrNames =
      some ["junction", "lj"] ∧
    (["junction", "lj"] : List String) ≠ [] ∧
    (∀ (t : PTree) (path : String) (e : PathErr),
      check_existing_path t path = .error e → e.possibilities = []) := by
  refine ⟨rfl, rfl, by simp, ?_⟩
  intro t path e h
  exact checkPathGo_possibilities (pySplit path ".") t path e h

/-- Witness for `C8_path_error_lists_none` at the concrete failing path. -/
theorem C8_witness :
    ({ errPath := "transmon.nope", stoppedAt := "nope",
       possibilities := [] } : PathErr).possibilities = [] :=
  C8_path_error_lists_none.2.2.2 pathTreeExample "transmon.nope"
    { errPath := "transmon.nope", stoppedAt := "nope", possibilities := [] } rfl

/-- The default render loop draws exactly the `children` attributes, in
order. -/
theorem drawChildren_eq_drawSeq : (attrs : EAttrs) →
    drawChildren attrs = drawSeq (childrenOf attrs)
  | .nil => rfl
  | .cons n (.child e) rest => by
    have ih := drawChildren_eq_drawSeq rest
    cases h : pyStartsWith n "_" <;>
      simp [drawChildren, childrenOf, h, ih, drawSeq]
  | .cons n (.group g ms) rest => by
    have ih := drawChildren_eq_drawSeq rest
    simp [drawChildren, childrenOf, ih]
  | .cons n .scalar rest => by
    have ih := drawChildren_eq_drawSeq rest
    simp [drawChildren, childrenOf, ih]

/-- Dropping every non-child attribute leaves the `children` property
unchanged. -/
theorem childrenOf_onlyChildAttrs : (attrs : EAttrs) →
    childrenOf (onlyChildAttrs attrs) = childrenOf attrs
  | .nil => rfl
  | .cons n (.child e) rest => by
    have ih := childrenOf_onlyChildAttrs rest
    cases h : pyStartsWith n "_" <;> simp [onlyChildAttrs, childrenOf, h, ih]
  | .cons n (.group g ms) rest => by
    have ih := childrenOf_onlyChildAttrs rest
    simp [onlyChildAttrs, childrenOf, ih]
  | .cons n .scalar rest => by
    have ih := childrenOf_onlyChildAttrs rest
    simp [onlyChildAttrs, childrenOf, ih]

/-- C3 fails on an element whose only drawable-like attribute is a variant
group: the default render step raises `NotImplementedError` and never
invokes the group, although the group and its member would render fine on
their own. -/
theorem C3_counterexample :
    drawE groupOnlyExample =
      .error "NotImplementedError: _draw() of Chip is not implemented" ∧
    drawGroup true (.econs memberExample .enil) = .ok ["m"] ∧
    drawE memberExample = .ok ["m"] :=
  ⟨rfl, rfl, rfl⟩

/-- C3 (amended): the default render step invokes the drawable contract on
every ChildElement-typed attribute in declaration order and on nothing
else (VariantGroup-typed attributes are skipped: deleting every non-child
attribute does not change it), and it fails with the
`NotImplementedError` exactly when the element has no ChildElement-typed
attributes — even when variant groups are present.  `VariantGroup.draw`
itself applies its own gate and draws its members in order. -/
theorem C3_amended :
    (∀ (cn n : String) (attrs : EAttrs),
      defaultRender cn n attrs = defaultRender cn n (onlyChildAttrs attrs)) ∧
    (∀ (cn n : String) (attrs : EAttrs), childrenOf attrs = [] →
      defaultRender cn n attrs =
        .error ("NotImplementedError: _draw() of " ++ cn ++
          " is not implemented")) ∧
    (∀ (cn n : String) (attrs : EAttrs), childrenOf attrs ≠ [] →
      defaultRender cn n attrs =
        (drawSeq (childrenOf attrs)).map (fun ts => n :: ts)) ∧
    (∀ e : Elem, e.custom = false → e.toDraw = true →
      drawE e = defaultRender e.className e.name e.attrs) ∧
    (∀ (gate : Bool) (ms : ElemList),
      drawGroup gate ms = if gate then drawMembers ms else .ok []) := by
  refine ⟨?_, ?_, ?_, ?_, fun gate ms => rfl⟩
  · intro cn n attrs
    simp only [defaultRender, drawChildren_eq_drawSeq, childrenOf_onlyChildAttrs]
  · intro cn n attrs h
    simp [defaultRender, drawChildren_eq_drawSeq, h, drawSeq]
  · intro cn n attrs h
    simp only [defaultRender, drawChildren_eq_drawSeq]
    have hne : (childrenOf attrs).isEmpty = false := by
      cases hc : childrenOf attrs with
      | nil => exact absurd hc h
      | cons a l => rfl
    cases hh : drawSeq (childrenOf attrs) with
    | ok ts => simp [hne, Except.map]
    | error e' => simp [Except.map]
  · intro e hcu htd
    cases e with
    | mk cn n td cu attrs =>
      simp only [Elem.custom] at hcu
      simp only [Elem.toDraw] at htd
      subst hcu
      subst htd
      rfl

/-- Witness for `C3_amended`: a group-only element fails, and a one-child
element delegates to exactly its child. -/
theorem C3_amended_witness :
    defaultRender "Chip" "chip"
        (.cons "g" (.group true (.econs memberExample .enil)) .nil) =
      .error ("NotImplementedError: _draw() of " ++ "Chip" ++
        " is not implemented") ∧
    defaultRender "Parent" "p" (.cons "c" (.child memberExample) .nil) =
      (drawSeq (childrenOf (.cons "c" (.child memberExample) .nil))).map
        (fun ts => "p" :: ts) :=
  ⟨C3_amended.2.1 "Chip" "chip" _ rfl,
   C3_amended.2.2.1 "Parent" "p" _ (by
      rw [show childrenOf (.cons "c" (.child memberExample) .nil) =
        [("c", memberExample)] from rfl]
      simp)⟩

/-- Lookup after assignment: the assigned key reads back the new value,
every other key is untouched. -/
theorem dget_dset : ∀ (d : VDict) (k' k : String) (v : Val),
    dget (dset d k' v) k = if k' = k then some v else dget d k
  | .nil, k', k, v => by
    by_cases h : k' = k <;> simp [dget, dset, h]
  | .cons a b rest, k', k, v => by
    have ih := dget_dset rest k' k v
    by_cases h1 : a = k'
    · subst h1
      by_cases h2 : a = k <;> simp [dget, dset, h2]
    · by_cases h2 : a = k
      · subst h2
        have : ¬k' = a := fun he => h1 he.symm
        simp [dget, dset, h1, this]
      · simp [dget, dset, h1, h2, ih]

/-- Membership after assignment. -/
theorem dmem_dset (d : VDict) (k' k : String) (v : Val) :
    dmem (dset d k' v) k = true ↔ k' = k ∨ dmem d k = true := by
  simp only [dmem, dget_dset]
  by_cases h : k' = k <;> simp [h]

/-- Keys whose last `__` segment is all digits never survive
`dropIndexedKeys`. -/
theorem dmem_dropIndexedKeys : ∀ (base : VDict) (k : String),
    lastSegDigit k = true → dmem (dropIndexedKeys base) k = false
  | .nil, k => fun _ => rfl
  | .cons a v rest, k => by
    intro h
    have ih := dmem_dropIndexedKeys rest k h
    by_cases ha : lastSegDigit a = true
    · simp [dropIndexedKeys, ha, ih]
    · have hak : ¬a = k := fun he => ha (he ▸ h)
      simp only [dropIndexedKeys, if_neg ha, dmem, dget, if_neg hak]
      exact ih

/-- A key present after `dict.update` was present in the base or in the
update. -/
theorem dmem_pyUpdate : ∀ (u d : VDict) (k : String),
    dmem (pyUpdate d u) k = true → dmem d k = true ∨ dmem u k = true
  | .nil, d, k => fun h => .inl h
  | .cons a v rest, d, k => by
    intro h
    rcases dmem_pyUpdate rest (dset d a v) k h with h1 | h1
    · rcases (dmem_dset d a k v).1 h1 with h2 | h2
      · right
        simp [dmem, dget, h2]
      · exact .inl h2
    · right
      by_cases ha : a = k <;> simp [dmem, dget, ha]
      simpa [dmem] using h1

/-- Every key of a synthesized per-group dictionary is `subKey__i` for some
index `i` (beyond whatever the accumulator already held). -/
theorem dmem_createDictVariationGo : ∀ (todo ind : Nat) (subKey : String)
    (subVar : Sweep) (acc out : VDict) (k : String),
    createDictVariationGo subKey subVar ind todo acc = .ok out →
    dmem out k = true →
    dmem acc k = true ∨ ∃ i : Nat, k = subKey ++ "__" ++ toString i
  | 0, ind, subKey, subVar, acc, out, k => by
    intro h hm
    cases h
    exact .inl hm
  | todo + 1, ind, subKey, subVar, acc, out, k => by
    intro h hm
    simp only [createDictVariationGo] at h
    cases hb : buildVariantEntryGo subKey ind subVar .nil with
    | error e => rw [hb] at h; cases h
    | ok entry =>
      rw [hb] at h
      rcases dmem_createDictVariationGo todo (ind + 1) subKey subVar _ out k h hm
        with h1 | h1
      · rcases (dmem_dset acc (subKey ++ "__" ++ toString ind) k (.vdict entry)).1 h1
          with h2 | h2
        · exact .inr ⟨ind, h2.symm⟩
        · exact .inl h2
      · exact .inr h1

/-- Every key the final update loop adds onto the document comes from one
of the groups, as `k0__i`. -/
theorem dmem_applyGroupsGo : ∀ (divs : List (String × Sweep))
    (lens : List (String × Nat)) (yaml out : VDict) (k : String),
    applyGroupsGo lens yaml divs = .ok out → dmem out k = true →
    dmem yaml k = true ∨
      ∃ (k0 : String) (sv : Sweep), (k0, sv) ∈ divs ∧
        ∃ i : Nat, k = k0 ++ "__" ++ toString i
  | [], lens, yaml, out, k => by
    intro h hm
    cases h
    exact .inl hm
  | (k0, subvar) :: rest, lens, yaml, out, k => by
    intro h hm
    simp only [applyGroupsGo] at h
    cases hc : create_dictionary_variation k0 ((lensLookup lens k0).getD 0) subvar with
    | error e => rw [hc] at h; cases h
    | ok sub =>
      rw [hc] at h
      rcases dmem_applyGroupsGo rest lens _ out k h hm with h1 | ⟨k0', sv', hmem, hi⟩
      · rcases dmem_pyUpdate sub yaml k h1 with h2 | h2
        · exact .inl h2
        · rcases dmem_createDictVariationGo _ _ _ _ _ _ k hc h2 with h3 | h3
          · exact absurd h3 (by simp [dmem, dget])
          · exact .inr ⟨k0, subvar, by simp, h3⟩
      · exact .inr ⟨k0', sv', by simp [hmem], hi⟩

/-- `dict_vars_div` insertion only reuses existing group names or the one
being inserted. -/
theorem divInsert_mem : ∀ (divs : List (String × Sweep)) (a key : String)
    (value : List Val) (k0 : String) (sv : Sweep),
    (k0, sv) ∈ divInsert divs a key value →
    (∃ sv0, (k0, sv0) ∈ divs) ∨ k0 = a
  | [], a, key, value, k0, sv => by
    intro h
    simp only [divInsert, List.mem_singleton] at h
    exact .inr (congrArg Prod.fst h)
  | (a', s) :: rest, a, key, value, k0, sv => by
    intro h
    simp only [divInsert] at h
    by_cases ha : a' = a
    · rw [if_pos ha] at h
      rcases List.mem_cons.1 h with h1 | h1
      · exact .inr (congrArg Prod.fst h1)
      · exact .inl ⟨sv, List.mem_cons_of_mem _ h1⟩
    · rw [if_neg ha] at h
      rcases List.mem_cons.1 h with h1 | h1
      · rcases Prod.mk.injEq .. ▸ h1 with ⟨h2, h3⟩
        exact .inl ⟨s, by simp [h2]⟩
      · rcases divInsert_mem rest a key value k0 sv h1 with ⟨sv0, h2⟩ | h2
        · exact .inl ⟨sv0, List.mem_cons_of_mem _ h2⟩
        · exact .inr h2

/-- Every group name in `dict_vars_div` is the top-level segment of one of
the sweep's paths (or was already in the accumulator). -/
theorem groupSweeps_div_provenance : ∀ (var : Sweep) (t : PTree)
    (lens0 : List (String × Nat)) (divs0 : List (String × Sweep))
    (lens : List (String × Nat)) (divs : List (String × Sweep)),
    groupSweepsGo t var lens0 divs0 = .ok (lens, divs) →
    ∀ k0 sv, (k0, sv) ∈ divs →
      (∃ sv0, (k0, sv0) ∈ divs0) ∨
        ∃ p vs, (p, vs) ∈ var ∧ k0 = (pySplit p ".").headD ""
  | [], t, lens0, divs0, lens, divs => by
    intro h k0 sv hm
    cases h
    exact .inl ⟨sv, hm⟩
  | (key, value) :: rest, t, lens0, divs0, lens, divs => by
    intro h k0 sv hm
    simp only [groupSweepsGo] at h
    split at h
    · cases h
    · split at h
      · split at h
        · cases h
        · rcases groupSweeps_div_provenance rest t _ _ lens divs h k0 sv hm with
            ⟨sv0, h1⟩ | ⟨p, vs, h1, h2⟩
          · rcases divInsert_mem divs0 _ key value k0 sv0 h1 with h2 | h2
            · exact .inl h2
            · exact .inr ⟨key, value, by simp, h2⟩
          · exact .inr ⟨p, vs, by simp [h1], h2⟩
      · rcases groupSweeps_div_provenance rest t _ _ lens divs h k0 sv hm with
          ⟨sv0, h1⟩ | ⟨p, vs, h1, h2⟩
        · rcases List.mem_append.1 h1 with h2 | h2
          · exact .inl ⟨sv0, h2⟩
          · simp only [List.mem_singleton] at h2
            exact .inr ⟨key, value, by simp, congrArg Prod.fst h2⟩
        · exact .inr ⟨p, vs, by simp [h1], h2⟩

/-- C7: sweep-document synthesis removes every pre-existing variant-indexed
key from the copied base before inserting the freshly synthesized entries
(every indexed key of the output is `k0__i` for the top-level segment `k0`
of one of the sweep's paths), and the claim's concrete sweep produces
exactly `x__0 = {y: 1, z: 3}` and `x__1 = {y: 2, z: 4}` beside the base's
own `x`, with the stale `x__7` gone. -/
theorem C7_sweep_synthesis :
    create_variation_yaml sweepTreeExample sweepBaseExample sweepExample =
      .ok sweepResultExample ∧
    (∀ (t : PTree) (base : VDict) (var : Sweep) (out : VDict) (k : String),
      create_variation_yaml t base var = .ok out →
      lastSegDigit k = true → dmem out k = true → isSynthKey var k) := by
  refine ⟨rfl, ?_⟩
  intro t base var out k h hdig hm
  simp only [create_variation_yaml] at h
  cases hg : groupSweepsGo t var [] [] with
  | error e => rw [hg] at h; cases h
  | ok p =>
    obtain ⟨lens, divs⟩ := p
    rw [hg] at h
    rcases dmem_applyGroupsGo divs lens _ out k h hm with h1 | ⟨k0, sv, hmem, i, hk⟩
    · rw [dmem_dropIndexedKeys base k hdig] at h1
      cases h1
    · rcases groupSweeps_div_provenance var t [] [] lens divs hg k0 sv hmem with
        ⟨sv0, h0⟩ | ⟨p', vs, hpv, hk0⟩
      · exact absurd h0 (List.not_mem_nil _)
      · exact ⟨p', vs, i, hpv, by rw [hk, hk0]⟩

/-- Witness for `C7_sweep_synthesis` at the concrete sweep: the synthesized
key `x__0` is accounted for by the sweep itself. -/
theorem C7_witness : isSynthKey sweepExample "x__0" :=
  C7_sweep_synthesis.2 sweepTreeExample sweepBaseExample sweepExample
    sweepResultExample "x__0" C7_sweep_synthesis.1 rfl rfl

/-- Overwriting one cell keeps every existing address readable. -/
theorem isSome_hsetCell_go : ∀ (cells : List (Nat × HDict)) (a : Nat)
    (d : HDict) (b : Nat),
    (hget.go cells b).isSome = true →
    (hget.go (hsetCell.go cells a d) b).isSome = true
  | [], a, d, b => by
    intro hb
    simp [hget.go] at hb
  | (a', d') :: rest, a, d, b => by
    intro hb
    by_cases h1 : a' = a
    · subst h1
      by_cases h2 : a' = b
      · simp [hget.go, hsetCell.go, h2]
      · simp only [hget.go, hsetCell.go, if_pos rfl, if_neg h2] at hb ⊢
        exact hb
    · by_cases h2 : a' = b
      · subst h2
        simp only [hsetCell.go, if_neg h1, hget.go, if_pos rfl]
        simp
      · simp only [hget.go, hsetCell.go, if_neg h1, if_neg h2] at hb ⊢
        exact isSome_hsetCell_go rest a d b hb

/-- Heap version of `isSome_hsetCell_go`. -/
theorem isSome_hsetCell (h : Heap) (a : Nat) (d : HDict) (b : Nat)
    (hb : (hget h b).isSome = true) :
    (hget (hsetCell h a d) b).isSome = true :=
  isSome_hsetCell_go h.cells a d b hb

/-- Entry assignment keeps every existing address readable. -/
theorem isSome_hsetEntry (h : Heap) (a : Nat) (k : String) (v : HVal) (b : Nat)
    (hb : (hget h b).isSome = true) :
    (hget (hsetEntry h a k v) b).isSome = true := by
  unfold hsetEntry
  split
  · exact isSome_hsetCell h a _ b hb
  · exact hb

/-- Appending a fresh cell keeps every existing address readable. -/
theorem isSome_hget_go_append : ∀ (cells : List (Nat × HDict))
    (x : Nat × HDict) (b : Nat),
    (hget.go cells b).isSome = true →
    (hget.go (cells ++ [x]) b).isSome = true
  | [], x, b => by
    intro hb
    simp [hget.go] at hb
  | (a', d') :: rest, x, b => by
    intro hb
    by_cases h1 : a' = b
    · simp [hget.go, List.cons_append, h1]
    · simp only [hget.go, List.cons_append, if_neg h1] at hb ⊢
      exact isSome_hget_go_append rest x b hb

mutual

/-- Allocation only ever adds cells: existing addresses stay readable. -/
theorem isSome_allocVal : ∀ (h : Heap) (v : FVal) (b : Nat),
    (hget h b).isSome = true → (hget (allocVal h v).1 b).isSome = true
  | _, .fstr _, _ => fun hb => hb
  | _, .fint _, _ => fun hb => hb
  | h, .fdict d, b => by
    intro hb
    have h1 : (hget (Heap.mk (h.cells ++ [(h.next, [])]) (h.next + 1)) b).isSome = true :=
      isSome_hget_go_append h.cells (h.next, []) b hb
    have h2 := isSome_allocDict _ d b h1
    exact isSome_hsetCell _ h.next _ b h2

/-- Allocating a document's entries preserves existing addresses. -/
theorem isSome_allocDict : ∀ (h : Heap) (d : FDict) (b : Nat),
    (hget h b).isSome = true → (hget (allocDict h d).1 b).isSome = true
  | _, .fnil, _ => fun hb => hb
  | h, .fcons k v rest, b => by
    intro hb
    exact isSome_allocDict _ rest b (isSome_allocVal h v b hb)

end

/-- The replacement pass of `_load_files` preserves existing addresses. -/
theorem isSome_loadPass1 : ∀ (entries : List (String × HVal)) (fsys : FileSys)
    (a : Nat) (h h' : Heap),
    loadPass1 fsys a h entries = .ok h' →
    ∀ b, (hget h b).isSome = true → (hget h' b).isSome = true
  | [], fsys, a, h, h' => by
    intro hc b hb
    cases hc
    exact hb
  | (k, .hstr str) :: rest, fsys, a, h, h' => by
    intro hc b hb
    simp only [loadPass1] at hc
    split at hc
    · split at hc
      · rename_i doc hdoc
        exact isSome_loadPass1 rest fsys a _ h' hc b
          (isSome_hsetEntry _ a k _ b (isSome_allocVal h doc b hb))
      · cases hc
    · exact isSome_loadPass1 rest fsys a h h' hc b hb
  | (k, .hint n) :: rest, fsys, a, h, h' => by
    intro hc b hb
    exact isSome_loadPass1 rest fsys a h h' hc b hb
  | (k, .href x) :: rest, fsys, a, h, h' => by
    intro hc b hb
    exact isSome_loadPass1 rest fsys a h h' hc b hb

/-- A fold whose step maps errors to themselves stays an error. -/
theorem foldl_err (step : Except String Heap → String → Except String Heap)
    (herr : ∀ e k, step (.error e) k = .error e) :
    ∀ (ks : List String) (e : String), List.foldl step (.error e) ks = .error e
  | [], _ => rfl
  | k :: ks, e => by
    rw [List.foldl_cons, herr]
    exact foldl_err step herr ks e

/-- A fold whose step preserves address readability preserves it overall. -/
theorem foldl_mono (step : Except String Heap → String → Except String Heap)
    (hstep : ∀ hh k hh', step (.ok hh) k = .ok hh' →
      ∀ b, (hget hh b).isSome = true → (hget hh' b).isSome = true)
    (herr : ∀ e k, step (.error e) k = .error e) :
    ∀ (ks : List String) (h0 h2 : Heap),
      List.foldl step (.ok h0) ks = .ok h2 →
      ∀ b, (hget h0 b).isSome = true → (hget h2 b).isSome = true
  | [], h0, h2 => by
    intro hf b hb
    cases hf
    exact hb
  | k :: ks, h0, h2 => by
    intro hf b hb
    rw [List.foldl_cons] at hf
    cases hs : step (.ok h0) k with
    | ok h1 =>
      rw [hs] at hf
      exact foldl_mono step hstep herr ks h1 h2 hf b (hstep h0 k h1 hs b hb)
    | error e =>
      rw [hs, foldl_err step herr ks e] at hf
      cases hf

/-- `_load_files` returns the very dictionary (address) it was handed. -/
theorem loadFiles_ret (fsys : FileSys) : ∀ (fuel : Nat) (h : Heap) (a : Nat)
    (h' : Heap) (r : Nat),
    loadFiles fsys fuel h a = .ok (h', r) → r = a
  | 0, h, a, h', r => by
    intro hc
    cases hc
  | fuel + 1, h, a, h', r => by
    intro hc
    simp only [loadFiles] at hc
    split at hc
    · cases hc
    · split at hc
      · cases hc
      · split at hc
        · cases hc
        · split at hc
          · cases hc
            rfl
          · cases hc

/-- `_load_files` never destroys a dictionary object: every address
readable before stays readable after. -/
theorem loadFiles_mono (fsys : FileSys) : ∀ (fuel : Nat) (h : Heap) (a : Nat)
    (h' : Heap) (r : Nat),
    loadFiles fsys fuel h a = .ok (h', r) →
    ∀ b, (hget h b).isSome = true → (hget h' b).isSome = true
  | 0, h, a, h', r => by
    intro hc
    cases hc
  | fuel + 1, h, a, h', r => by
    intro hc b hb
    simp only [loadFiles] at hc
    split at hc
    · cases hc
    · rename_i entries hEntries
      split at hc
      · cases hc
      · rename_i h1 hPass1
        split at hc
        · cases hc
        · rename_i entries1 hEntries1
          split at hc
          · rename_i h2 hFold
            have hb1 : (hget h1 b).isSome = true :=
              isSome_loadPass1 entries fsys a h h1 hPass1 b hb
            have hmain : (hget h2 b).isSome = true := by
              refine foldl_mono _ ?_ (fun e k => rfl) (hdkeys entries1) h1 h2
                hFold b hb1
              intro hh k hh' hs c hcb
              split at hs
              · cases hs
              · rename_i hh1 hOk
                injection hOk with hOk2
                subst hOk2
                split at hs
                · rename_i bb hbb
                  split at hs
                  · rename_i hh2 bb' hrec
                    cases hs
                    exact isSome_hsetEntry hh2 a k _ c
                      (loadFiles_mono fsys fuel hh bb hh2 bb' hrec c hcb)
                  · cases hs
                · cases hs
                  exact hcb
            cases hc
            exact hmain
          · cases hc

/-- C10: root construction stores the caller's very mapping (the address
`_load_files` returns is the one passed in), mutates only in place (every
pre-existing dictionary object survives at its address), and on the
concrete nested example the caller's dictionary at its original address now
holds the loaded contents, with the non-yaml entry untouched, the
pre-existing nested dictionary keeping its address and contents, and the
loaded document itself recursively loaded at a fresh address. -/
theorem C10_inplace_load_aliasing :
    (∀ (fsys : FileSys) (fuel : Nat) (h : Heap) (a : Nat) (h' : Heap) (r : Nat),
      rootInitConfig fsys fuel h a = .ok (h', r) → r = a) ∧
    (∀ (fsys : FileSys) (fuel : Nat) (h : Heap) (a : Nat) (h' : Heap)
        (r : Nat) (b : Nat),
      rootInitConfig fsys fuel h a = .ok (h', r) →
      (hget h b).isSome = true → (hget h' b).isSome = true) ∧
    rootInitConfig fsysExample 10 heapExample 0 = .ok (loadedHeapExample, 0) ∧
    hget loadedHeapExample 0 =
      some [("sub", .href 8), ("w", .hint 5), ("nested", .href 7)] ∧
    hget loadedHeapExample 7 = hget heapExample 7 ∧
    hget loadedHeapExample 8 = some [("a", .hint 3)] :=
  ⟨fun fsys fuel h a h' r hc => loadFiles_ret fsys fuel h a h' r hc,
   fun fsys fuel h a h' r b hc hb => loadFiles_mono fsys fuel h a h' r hc b hb,
   rfl, rfl, rfl, rfl⟩

/-- Witness for `C10_inplace_load_aliasing` at the concrete example. -/
theorem C10_witness :
    (0 : Nat) = 0 ∧ (hget loadedHeapExample 0).isSome = true :=
  ⟨C10_inplace_load_aliasing.1 fsysExample 10 heapExample 0 loadedHeapExample 0
     C10_inplace_load_aliasing.2.2.1,
   C10_inplace_load_aliasing.2.1 fsysExample 10 heapExample 0 loadedHeapExample
     0 0 C10_inplace_load_aliasing.2.2.1 rfl⟩

end Drawable
